import Mathlib

/-!
Verification development for the Atlas backend core
(`src/backend/umap_service.py`, `src/backend/knn_service.py`,
`src/backend/app.py`).

Python floats are embedded as rationals (`ℚ`); numpy arrays as lists.
Fallible operations return `Option`/`Except`.
-/

namespace Atlas

/-! ## Coordinates and the projection normalizer (`umap_service.py`) -/

/-- A 3-D coordinate, one row of the `[n, 3]` numpy coordinate matrix
consumed by `UMAPService.normalize_coords`. -/
structure Point3 where
  x : ℚ
  y : ℚ
  z : ℚ
deriving DecidableEq, Repr

/-- Running minimum of a list with initial value `a`: the per-axis
`coords.min(axis=0)` reduction of numpy, expressed as a left fold. -/
def foldMin (a : ℚ) (l : List ℚ) : ℚ := l.foldl min a

/-- Running maximum of a list with initial value `a`: the per-axis
`coords.max(axis=0)` reduction of numpy. -/
def foldMax (a : ℚ) (l : List ℚ) : ℚ := l.foldl max a

/-- Per-axis minimum over the non-empty batch `c :: cs`, where `f`
projects out one axis (`Point3.x`, `Point3.y` or `Point3.z`). -/
def axisMin (f : Point3 → ℚ) (c : Point3) (cs : List Point3) : ℚ :=
  foldMin (f c) (cs.map f)

/-- Per-axis maximum over the non-empty batch `c :: cs`. -/
def axisMax (f : Point3 → ℚ) (c : Point3) (cs : List Point3) : ℚ :=
  foldMax (f c) (cs.map f)

/-- Midpoint `(min_vals + max_vals) / 2` of the bounding box on one axis,
as computed in `normalize_coords` (line 131 of `umap_service.py`). -/
def bboxMid (f : Point3 → ℚ) (c : Point3) (cs : List Point3) : ℚ :=
  (axisMin f c cs + axisMax f c cs) / 2

/-- Extent `max_vals - min_vals` of the bounding box on one axis. -/
def axisRange (f : Point3 → ℚ) (c : Point3) (cs : List Point3) : ℚ :=
  axisMax f c cs - axisMin f c cs

/-- The scalar `max_range = (max_vals - min_vals).max()` of
`normalize_coords` (line 134): the largest per-axis extent. -/
def maxRangeOf (c : Point3) (cs : List Point3) : ℚ :=
  max (axisRange Point3.x c cs)
    (max (axisRange Point3.y c cs) (axisRange Point3.z c cs))

/-- Embedding of `UMAPService.normalize_coords` (`umap_service.py`,
lines 117-140).  Centers every point at the bounding-box midpoint, then,
when the largest extent `max_range` is positive, rescales every centered
coordinate by `(2 * scale) / max_range`; when `max_range = 0` the centered
points are returned unscaled.  On an empty batch numpy's `min`/`max`
reductions raise, so the embedding returns `none` there. -/
def normalize_coords (coords : List Point3) (scale : ℚ) : Option (List Point3) :=
  match coords with
  | [] => none
  | c :: cs =>
      let midX := bboxMid Point3.x c cs
      let midY := bboxMid Point3.y c cs
      let midZ := bboxMid Point3.z c cs
      let centered := (c :: cs).map
        (fun p => Point3.mk (p.x - midX) (p.y - midY) (p.z - midZ))
      let maxRange := maxRangeOf c cs
      if 0 < maxRange then
        some (centered.map
          (fun p => Point3.mk (p.x / maxRange * 2 * scale)
            (p.y / maxRange * 2 * scale) (p.z / maxRange * 2 * scale)))
      else
        some centered

/-- Squared Euclidean distance between two 3-D points, used to express
that normalization rescales all pairwise distances uniformly. -/
def sqDist3 (p q : Point3) : ℚ :=
  (p.x - q.x) ^ 2 + (p.y - q.y) ^ 2 + (p.z - q.z) ^ 2

/-! ### Elementary facts about the fold-based minima and maxima -/

lemma foldMin_cons (a b : ℚ) (l : List ℚ) :
    foldMin a (b :: l) = foldMin (min a b) l := rfl

lemma foldMax_cons (a b : ℚ) (l : List ℚ) :
    foldMax a (b :: l) = foldMax (max a b) l := rfl

lemma foldMin_mem (a : ℚ) (l : List ℚ) : foldMin a l ∈ a :: l := by
  induction l generalizing a with
  | nil => simp [foldMin]
  | cons b t ih =>
      rw [foldMin_cons]
      rcases min_choice a b with h | h <;> rw [h]
      · rcases List.mem_cons.mp (ih a) with h' | h' <;> simp [h']
      · rcases List.mem_cons.mp (ih b) with h' | h' <;> simp [h']

lemma foldMin_le_init (a : ℚ) (l : List ℚ) : foldMin a l ≤ a := by
  induction l generalizing a with
  | nil => simp [foldMin]
  | cons b t ih =>
      rw [foldMin_cons]
      exact le_trans (ih (min a b)) (min_le_left a b)

lemma foldMin_le_mem (a b : ℚ) (l : List ℚ) (hb : b ∈ l) : foldMin a l ≤ b := by
  induction l generalizing a with
  | nil => cases hb
  | cons c t ih =>
      rw [foldMin_cons]
      rcases List.mem_cons.mp hb with h | h
      · rw [h]
        exact le_trans (foldMin_le_init (min a c) t) (min_le_right a c)
      · exact ih (min a c) h

lemma le_foldMax_init (a : ℚ) (l : List ℚ) : a ≤ foldMax a l := by
  induction l generalizing a with
  | nil => simp [foldMax]
  | cons b t ih =>
      rw [foldMax_cons]
      exact le_trans (le_max_left a b) (ih (max a b))

lemma mem_le_foldMax (a b : ℚ) (l : List ℚ) (hb : b ∈ l) : b ≤ foldMax a l := by
  induction l generalizing a with
  | nil => cases hb
  | cons c t ih =>
      rw [foldMax_cons]
      rcases List.mem_cons.mp hb with h | h
      · rw [h]
        exact le_trans (le_max_right a c) (le_foldMax_init (max a c) t)
      · exact ih (max a c) h

lemma foldMax_mem (a : ℚ) (l : List ℚ) : foldMax a l ∈ a :: l := by
  induction l generalizing a with
  | nil => simp [foldMax]
  | cons b t ih =>
      rw [foldMax_cons]
      rcases max_choice a b with h | h <;> rw [h]
      · rcases List.mem_cons.mp (ih a) with h' | h' <;> simp [h']
      · rcases List.mem_cons.mp (ih b) with h' | h' <;> simp [h']

lemma foldMin_const (a : ℚ) (l : List ℚ) (h : ∀ b ∈ l, b = a) :
    foldMin a l = a := by
  have hmem := foldMin_mem a l
  rcases List.mem_cons.mp hmem with h' | h'
  · exact h'
  · exact h _ h'

lemma foldMax_const (a : ℚ) (l : List ℚ) (h : ∀ b ∈ l, b = a) :
    foldMax a l = a := by
  have hmem := foldMax_mem a l
  rcases List.mem_cons.mp hmem with h' | h'
  · exact h'
  · exact h _ h'

lemma axisMin_le (f : Point3 → ℚ) (c : Point3) (cs : List Point3)
    (p : Point3) (hp : p ∈ c :: cs) : axisMin f c cs ≤ f p := by
  rcases List.mem_cons.mp hp with h | h
  · exact h ▸ foldMin_le_init (f c) (cs.map f)
  · exact foldMin_le_mem (f c) (f p) (cs.map f) (List.mem_map_of_mem f h)

lemma le_axisMax (f : Point3 → ℚ) (c : Point3) (cs : List Point3)
    (p : Point3) (hp : p ∈ c :: cs) : f p ≤ axisMax f c cs := by
  rcases List.mem_cons.mp hp with h | h
  · exact h ▸ le_foldMax_init (f c) (cs.map f)
  · exact mem_le_foldMax (f c) (f p) (cs.map f) (List.mem_map_of_mem f h)

lemma axisMin_attained (f : Point3 → ℚ) (c : Point3) (cs : List Point3) :
    ∃ p ∈ c :: cs, f p = axisMin f c cs := by
  have hmem := foldMin_mem (f c) (cs.map f)
  rcases List.mem_cons.mp hmem with h | h
  · exact ⟨c, List.mem_cons_self c cs, h.symm⟩
  · rcases List.mem_map.mp h with ⟨p, hp, hfp⟩
    exact ⟨p, List.mem_cons_of_mem c hp, hfp⟩

lemma axisMax_attained (f : Point3 → ℚ) (c : Point3) (cs : List Point3) :
    ∃ p ∈ c :: cs, f p = axisMax f c cs := by
  have hmem := foldMax_mem (f c) (cs.map f)
  rcases List.mem_cons.mp hmem with h | h
  · exact ⟨c, List.mem_cons_self c cs, h.symm⟩
  · rcases List.mem_map.mp h with ⟨p, hp, hfp⟩
    exact ⟨p, List.mem_cons_of_mem c hp, hfp⟩

lemma axisRange_le_maxRange_x (c : Point3) (cs : List Point3) :
    axisRange Point3.x c cs ≤ maxRangeOf c cs := le_max_left _ _

lemma axisRange_le_maxRange_y (c : Point3) (cs : List Point3) :
    axisRange Point3.y c cs ≤ maxRangeOf c cs :=
  le_trans (le_max_left _ _) (le_max_right _ _)

lemma axisRange_le_maxRange_z (c : Point3) (cs : List Point3) :
    axisRange Point3.z c cs ≤ maxRangeOf c cs :=
  le_trans (le_max_right _ _) (le_max_right _ _)

lemma maxRange_cases (c : Point3) (cs : List Point3) :
    maxRangeOf c cs = axisRange Point3.x c cs ∨
      maxRangeOf c cs = axisRange Point3.y c cs ∨
        maxRangeOf c cs = axisRange Point3.z c cs := by
  rcases max_choice (axisRange Point3.x c cs)
      (max (axisRange Point3.y c cs) (axisRange Point3.z c cs)) with h | h
  · exact Or.inl h
  · rcases max_choice (axisRange Point3.y c cs) (axisRange Point3.z c cs) with h' | h'
    · exact Or.inr (Or.inl (h.trans h'))
    · exact Or.inr (Or.inr (h.trans h'))

lemma axisMin_eq_of (f : Point3 → ℚ) (c : Point3) (cs : List Point3) (v : ℚ)
    (hlb : ∀ p ∈ c :: cs, v ≤ f p) (hat : ∃ p ∈ c :: cs, f p = v) :
    axisMin f c cs = v := by
  obtain ⟨p, hp, hfp⟩ := hat
  refine le_antisymm ?_ ?_
  · rw [← hfp]
    exact axisMin_le f c cs p hp
  · obtain ⟨q, hq, hfq⟩ := axisMin_attained f c cs
    rw [← hfq]
    exact hlb q hq

lemma axisMax_eq_of (f : Point3 → ℚ) (c : Point3) (cs : List Point3) (v : ℚ)
    (hub : ∀ p ∈ c :: cs, f p ≤ v) (hat : ∃ p ∈ c :: cs, f p = v) :
    axisMax f c cs = v := by
  obtain ⟨p, hp, hfp⟩ := hat
  refine le_antisymm ?_ ?_
  · obtain ⟨q, hq, hfq⟩ := axisMax_attained f c cs
    rw [← hfq]
    exact hub q hq
  · rw [← hfp]
    exact le_axisMax f c cs p hp

lemma axisRange_le_of_bounds (f : Point3 → ℚ) (o : Point3) (os : List Point3) (s : ℚ)
    (h : ∀ p ∈ o :: os, -s ≤ f p ∧ f p ≤ s) : axisRange f o os ≤ 2 * s := by
  obtain ⟨p, hp, hfp⟩ := axisMax_attained f o os
  obtain ⟨q, hq, hfq⟩ := axisMin_attained f o os
  have h1 := (h p hp).2
  have h2 := (h q hq).1
  unfold axisRange
  rw [← hfp, ← hfq]
  linarith

lemma maxRange_eq_of_axes (o : Point3) (os : List Point3) (v : ℚ)
    (hx : axisRange Point3.x o os ≤ v) (hy : axisRange Point3.y o os ≤ v)
    (hz : axisRange Point3.z o os ≤ v)
    (hone : axisRange Point3.x o os = v ∨ axisRange Point3.y o os = v ∨
      axisRange Point3.z o os = v) :
    maxRangeOf o os = v := by
  refine le_antisymm (max_le hx (max_le hy hz)) ?_
  rcases hone with h | h | h
  · rw [← h]
    exact le_max_left _ _
  · rw [← h]
    exact le_trans (le_max_left _ _) (le_max_right _ _)
  · rw [← h]
    exact le_trans (le_max_right _ _) (le_max_right _ _)

/-! ### The scaling map on one axis -/

lemma scaled_le (m M v R s : ℚ) (hR : 0 < R) (hs : 0 < s)
    (h1 : m ≤ v) (h2 : v ≤ M) (h3 : M - m ≤ R) :
    -s ≤ (v - (m + M) / 2) / R * 2 * s ∧ (v - (m + M) / 2) / R * 2 * s ≤ s := by
  have hq1 : (v - (m + M) / 2) / R ≤ 1 / 2 := by
    rw [div_le_iff₀ hR]
    linarith
  have hq2 : -(1 / 2) ≤ (v - (m + M) / 2) / R := by
    rw [le_div_iff₀ hR]
    linarith
  constructor
  · nlinarith [mul_nonneg (by linarith : (0:ℚ) ≤ (v - (m + M) / 2) / R + 1 / 2) hs.le]
  · nlinarith [mul_nonneg (by linarith : (0:ℚ) ≤ 1 / 2 - (v - (m + M) / 2) / R) hs.le]

lemma scaled_at_min (m M s : ℚ) (h : M - m ≠ 0) :
    (m - (m + M) / 2) / (M - m) * 2 * s = -s := by
  field_simp
  ring

lemma scaled_at_max (m M s : ℚ) (h : M - m ≠ 0) :
    (M - (m + M) / 2) / (M - m) * 2 * s = s := by
  field_simp
  ring

/-! ### Unfolding normalize_coords in its two branches -/

lemma normalize_coords_pos (c : Point3) (cs : List Point3) (s : ℚ)
    (hR : 0 < maxRangeOf c cs) :
    normalize_coords (c :: cs) s = some ((c :: cs).map
      (fun p => Point3.mk
        ((p.x - bboxMid Point3.x c cs) / maxRangeOf c cs * 2 * s)
        ((p.y - bboxMid Point3.y c cs) / maxRangeOf c cs * 2 * s)
        ((p.z - bboxMid Point3.z c cs) / maxRangeOf c cs * 2 * s))) := by
  simp only [normalize_coords, if_pos hR, List.map_map]
  rfl

lemma normalize_coords_degenerate (c : Point3) (cs : List Point3) (s : ℚ)
    (hR : ¬ 0 < maxRangeOf c cs) :
    normalize_coords (c :: cs) s = some ((c :: cs).map
      (fun p => Point3.mk
        (p.x - bboxMid Point3.x c cs)
        (p.y - bboxMid Point3.y c cs)
        (p.z - bboxMid Point3.z c cs))) := by
  simp only [normalize_coords, if_neg hR]

lemma axis_bounds_pos (f : Point3 → ℚ) (c : Point3) (cs : List Point3) (s : ℚ)
    (hR : 0 < maxRangeOf c cs) (hs : 0 < s)
    (hle : axisRange f c cs ≤ maxRangeOf c cs)
    (p : Point3) (hp : p ∈ c :: cs) :
    -s ≤ (f p - bboxMid f c cs) / maxRangeOf c cs * 2 * s ∧
      (f p - bboxMid f c cs) / maxRangeOf c cs * 2 * s ≤ s := by
  have h1 := axisMin_le f c cs p hp
  have h2 := le_axisMax f c cs p hp
  have h3 : axisMax f c cs - axisMin f c cs ≤ maxRangeOf c cs := hle
  have := scaled_le (axisMin f c cs) (axisMax f c cs) (f p) (maxRangeOf c cs) s
    hR hs h1 h2 h3
  simpa [bboxMid] using this

lemma axis_attains_pos (f : Point3 → ℚ) (c : Point3) (cs : List Point3) (s : ℚ)
    (hR : 0 < maxRangeOf c cs) (hEq : axisRange f c cs = maxRangeOf c cs) :
    (∃ p ∈ c :: cs, (f p - bboxMid f c cs) / maxRangeOf c cs * 2 * s = -s) ∧
      (∃ p ∈ c :: cs, (f p - bboxMid f c cs) / maxRangeOf c cs * 2 * s = s) := by
  have hne : axisMax f c cs - axisMin f c cs ≠ 0 := by
    have hne' : axisRange f c cs ≠ 0 := by
      rw [hEq]
      exact hR.ne'
    simpa [axisRange] using hne'
  constructor
  · obtain ⟨p, hp, hfp⟩ := axisMin_attained f c cs
    refine ⟨p, hp, ?_⟩
    rw [hfp, ← hEq]
    exact scaled_at_min (axisMin f c cs) (axisMax f c cs) s hne
  · obtain ⟨p, hp, hfp⟩ := axisMax_attained f c cs
    refine ⟨p, hp, ?_⟩
    rw [hfp, ← hEq]
    exact scaled_at_max (axisMin f c cs) (axisMax f c cs) s hne

/-- C2: on a non-degenerate batch (some axis of the bounding box has
positive extent) and a positive scale, `normalize_coords` succeeds and its
output satisfies: every coordinate lies in `[-scale, scale]` on every axis,
the bound is attained with equality (both `-scale` and `scale`) on at least
one axis, and the longest axis of the output bounding box spans exactly
`2 * scale`. -/
theorem normalize_bounds_and_span (c : Point3) (cs : List Point3) (scale : ℚ)
    (hR : 0 < maxRangeOf c cs) (hs : 0 < scale) :
    ∃ out, normalize_coords (c :: cs) scale = some out ∧
      (∀ p ∈ out, -scale ≤ p.x ∧ p.x ≤ scale ∧ -scale ≤ p.y ∧ p.y ≤ scale ∧
        -scale ≤ p.z ∧ p.z ≤ scale) ∧
      (∃ f ∈ [Point3.x, Point3.y, Point3.z],
        (∃ p ∈ out, f p = -scale) ∧ (∃ p ∈ out, f p = scale)) ∧
      ∃ o os, out = o :: os ∧ maxRangeOf o os = 2 * scale := by
  classical
  set T : Point3 → Point3 := fun p => Point3.mk
      ((p.x - bboxMid Point3.x c cs) / maxRangeOf c cs * 2 * scale)
      ((p.y - bboxMid Point3.y c cs) / maxRangeOf c cs * 2 * scale)
      ((p.z - bboxMid Point3.z c cs) / maxRangeOf c cs * 2 * scale) with hT
  have hbounds : ∀ p ∈ (c :: cs).map T,
      -scale ≤ p.x ∧ p.x ≤ scale ∧ -scale ≤ p.y ∧ p.y ≤ scale ∧
        -scale ≤ p.z ∧ p.z ≤ scale := by
    intro p hp
    obtain ⟨q, hq, rfl⟩ := List.mem_map.mp hp
    obtain ⟨bx1, bx2⟩ := axis_bounds_pos Point3.x c cs scale hR hs
      (axisRange_le_maxRange_x c cs) q hq
    obtain ⟨by1, by2⟩ := axis_bounds_pos Point3.y c cs scale hR hs
      (axisRange_le_maxRange_y c cs) q hq
    obtain ⟨bz1, bz2⟩ := axis_bounds_pos Point3.z c cs scale hR hs
      (axisRange_le_maxRange_z c cs) q hq
    exact ⟨bx1, bx2, by1, by2, bz1, bz2⟩
  refine ⟨(c :: cs).map T, normalize_coords_pos c cs scale hR, hbounds, ?_, ?_⟩
  · rcases maxRange_cases c cs with h | h | h
    · refine ⟨Point3.x, by simp, ?_, ?_⟩
      · obtain ⟨p, hp, he⟩ := (axis_attains_pos Point3.x c cs scale hR h.symm).1
        exact ⟨T p, List.mem_map_of_mem T hp, he⟩
      · obtain ⟨p, hp, he⟩ := (axis_attains_pos Point3.x c cs scale hR h.symm).2
        exact ⟨T p, List.mem_map_of_mem T hp, he⟩
    · refine ⟨Point3.y, by simp, ?_, ?_⟩
      · obtain ⟨p, hp, he⟩ := (axis_attains_pos Point3.y c cs scale hR h.symm).1
        exact ⟨T p, List.mem_map_of_mem T hp, he⟩
      · obtain ⟨p, hp, he⟩ := (axis_attains_pos Point3.y c cs scale hR h.symm).2
        exact ⟨T p, List.mem_map_of_mem T hp, he⟩
    · refine ⟨Point3.z, by simp, ?_, ?_⟩
      · obtain ⟨p, hp, he⟩ := (axis_attains_pos Point3.z c cs scale hR h.symm).1
        exact ⟨T p, List.mem_map_of_mem T hp, he⟩
      · obtain ⟨p, hp, he⟩ := (axis_attains_pos Point3.z c cs scale hR h.symm).2
        exact ⟨T p, List.mem_map_of_mem T hp, he⟩
  · refine ⟨T c, cs.map T, rfl, ?_⟩
    have hbx : ∀ p ∈ T c :: cs.map T, -scale ≤ p.x ∧ p.x ≤ scale := by
      intro p hp
      exact ⟨(hbounds p hp).1, (hbounds p hp).2.1⟩
    have hby : ∀ p ∈ T c :: cs.map T, -scale ≤ p.y ∧ p.y ≤ scale := by
      intro p hp
      exact ⟨(hbounds p hp).2.2.1, (hbounds p hp).2.2.2.1⟩
    have hbz : ∀ p ∈ T c :: cs.map T, -scale ≤ p.z ∧ p.z ≤ scale := by
      intro p hp
      exact ⟨(hbounds p hp).2.2.2.2.1, (hbounds p hp).2.2.2.2.2⟩
    have hlex := axisRange_le_of_bounds Point3.x (T c) (cs.map T) scale hbx
    have hley := axisRange_le_of_bounds Point3.y (T c) (cs.map T) scale hby
    have hlez := axisRange_le_of_bounds Point3.z (T c) (cs.map T) scale hbz
    have key : ∀ f : Point3 → ℚ,
        (∀ p ∈ T c :: cs.map T, -scale ≤ f p ∧ f p ≤ scale) →
        (∃ p ∈ T c :: cs.map T, f p = -scale) →
        (∃ p ∈ T c :: cs.map T, f p = scale) →
        axisRange f (T c) (cs.map T) = 2 * scale := by
      intro f hb hlo hhi
      have hmin : axisMin f (T c) (cs.map T) = -scale :=
        axisMin_eq_of f (T c) (cs.map T) (-scale) (fun p hp => (hb p hp).1) hlo
      have hmax : axisMax f (T c) (cs.map T) = scale :=
        axisMax_eq_of f (T c) (cs.map T) scale (fun p hp => (hb p hp).2) hhi
      unfold axisRange
      rw [hmin, hmax]
      ring
    rcases maxRange_cases c cs with h | h | h
    · obtain ⟨hlo, hhi⟩ := axis_attains_pos Point3.x c cs scale hR h.symm
      obtain ⟨p, hp, he⟩ := hlo
      obtain ⟨p', hp', he'⟩ := hhi
      refine maxRange_eq_of_axes (T c) (cs.map T) (2 * scale) hlex hley hlez
        (Or.inl (key Point3.x hbx ⟨T p, List.mem_map_of_mem T hp, he⟩
          ⟨T p', List.mem_map_of_mem T hp', he'⟩))
    · obtain ⟨hlo, hhi⟩ := axis_attains_pos Point3.y c cs scale hR h.symm
      obtain ⟨p, hp, he⟩ := hlo
      obtain ⟨p', hp', he'⟩ := hhi
      refine maxRange_eq_of_axes (T c) (cs.map T) (2 * scale) hlex hley hlez
        (Or.inr (Or.inl (key Point3.y hby ⟨T p, List.mem_map_of_mem T hp, he⟩
          ⟨T p', List.mem_map_of_mem T hp', he'⟩)))
    · obtain ⟨hlo, hhi⟩ := axis_attains_pos Point3.z c cs scale hR h.symm
      obtain ⟨p, hp, he⟩ := hlo
      obtain ⟨p', hp', he'⟩ := hhi
      refine maxRange_eq_of_axes (T c) (cs.map T) (2 * scale) hlex hley hlez
        (Or.inr (Or.inr (key Point3.z hbz ⟨T p, List.mem_map_of_mem T hp, he⟩
          ⟨T p', List.mem_map_of_mem T hp', he'⟩)))

/-- Witness for C2 at the concrete batch `[(0,0,0), (1,2,0)]` with
`scale = 5`. -/
theorem normalize_bounds_and_span_witness :
    0 < maxRangeOf ⟨0, 0, 0⟩ [⟨1, 2, 0⟩] ∧ 0 < (5:ℚ) ∧
      (∃ out, normalize_coords ((⟨0, 0, 0⟩ : Point3) :: [⟨1, 2, 0⟩]) 5 = some out ∧
        (∀ p ∈ out, -(5:ℚ) ≤ p.x ∧ p.x ≤ 5 ∧ -(5:ℚ) ≤ p.y ∧ p.y ≤ 5 ∧
          -(5:ℚ) ≤ p.z ∧ p.z ≤ 5) ∧
        (∃ f ∈ [Point3.x, Point3.y, Point3.z],
          (∃ p ∈ out, f p = -(5:ℚ)) ∧ (∃ p ∈ out, f p = 5)) ∧
        ∃ o os, out = o :: os ∧ maxRangeOf o os = 2 * 5) :=
  ⟨by norm_num [maxRangeOf, axisRange, axisMax, axisMin, foldMax, foldMin], by norm_num,
    normalize_bounds_and_span ⟨0, 0, 0⟩ [⟨1, 2, 0⟩] 5
      (by norm_num [maxRangeOf, axisRange, axisMax, axisMin, foldMax, foldMin])
      (by norm_num)⟩

/-- C6: when all points of a non-empty batch coincide (bounding-box extent
zero on every axis), `normalize_coords` succeeds for every scale and places
every point at the origin; the division branch is never taken. -/
theorem normalize_degenerate_origin (c : Point3) (cs : List Point3) (scale : ℚ)
    (h : ∀ p ∈ c :: cs, p = c) :
    ∃ out, normalize_coords (c :: cs) scale = some out ∧
      out.length = (c :: cs).length ∧ ∀ p ∈ out, p = ⟨0, 0, 0⟩ := by
  have hmin : ∀ f : Point3 → ℚ, axisMin f c cs = f c := by
    intro f
    apply foldMin_const
    intro b hb
    obtain ⟨p, hp, rfl⟩ := List.mem_map.mp hb
    rw [h p (List.mem_cons_of_mem c hp)]
  have hmax : ∀ f : Point3 → ℚ, axisMax f c cs = f c := by
    intro f
    apply foldMax_const
    intro b hb
    obtain ⟨p, hp, rfl⟩ := List.mem_map.mp hb
    rw [h p (List.mem_cons_of_mem c hp)]
  have hrange : ∀ f : Point3 → ℚ, axisRange f c cs = 0 := by
    intro f
    unfold axisRange
    rw [hmin, hmax]
    ring
  have hR : ¬ 0 < maxRangeOf c cs := by
    unfold maxRangeOf
    rw [hrange Point3.x, hrange Point3.y, hrange Point3.z]
    simp
  have hmid : ∀ f : Point3 → ℚ, bboxMid f c cs = f c := by
    intro f
    unfold bboxMid
    rw [hmin, hmax]
    ring
  refine ⟨_, normalize_coords_degenerate c cs scale hR, by simp, ?_⟩
  intro p hp
  obtain ⟨q, hq, rfl⟩ := List.mem_map.mp hp
  have hq' : q = c := h q hq
  simp [hq', hmid Point3.x, hmid Point3.y, hmid Point3.z]

/-- Witness for C6 on a batch of two identical points. -/
theorem normalize_degenerate_origin_witness :
    (∀ p ∈ (⟨1, 2, 3⟩ : Point3) :: [⟨1, 2, 3⟩], p = (⟨1, 2, 3⟩ : Point3)) ∧
      ∃ out, normalize_coords ((⟨1, 2, 3⟩ : Point3) :: [⟨1, 2, 3⟩]) 10 = some out ∧
        out.length = ((⟨1, 2, 3⟩ : Point3) :: [⟨1, 2, 3⟩]).length ∧
          ∀ p ∈ out, p = (⟨0, 0, 0⟩ : Point3) :=
  ⟨by simp, normalize_degenerate_origin ⟨1, 2, 3⟩ [⟨1, 2, 3⟩] 10 (by simp)⟩

/-- C7 (amended): for a non-empty batch and a non-negative scale,
`normalize_coords` is a single uniform affine transform: one translation
(the bounding-box midpoint) and one shared non-negative scalar factor such
that every output point is the factor times the centered input point, and
all pairwise squared distances are rescaled by the same `factor ^ 2`. -/
theorem normalize_uniform_affine (c : Point3) (cs : List Point3) (scale : ℚ)
    (hs : 0 ≤ scale) :
    ∃ t : Point3, ∃ factor : ℚ, 0 ≤ factor ∧
      normalize_coords (c :: cs) scale = some ((c :: cs).map
        (fun p => Point3.mk ((p.x - t.x) * factor) ((p.y - t.y) * factor)
          ((p.z - t.z) * factor))) ∧
      ∀ p ∈ c :: cs, ∀ q ∈ c :: cs,
        sqDist3
          (Point3.mk ((p.x - t.x) * factor) ((p.y - t.y) * factor) ((p.z - t.z) * factor))
          (Point3.mk ((q.x - t.x) * factor) ((q.y - t.y) * factor) ((q.z - t.z) * factor)) =
          factor ^ 2 * sqDist3 p q := by
  by_cases hR : 0 < maxRangeOf c cs
  · refine ⟨⟨bboxMid Point3.x c cs, bboxMid Point3.y c cs, bboxMid Point3.z c cs⟩,
      2 * scale / maxRangeOf c cs, div_nonneg (by linarith) hR.le, ?_, ?_⟩
    · rw [normalize_coords_pos c cs scale hR]
      have hfg : (fun p : Point3 => Point3.mk
          ((p.x - bboxMid Point3.x c cs) / maxRangeOf c cs * 2 * scale)
          ((p.y - bboxMid Point3.y c cs) / maxRangeOf c cs * 2 * scale)
          ((p.z - bboxMid Point3.z c cs) / maxRangeOf c cs * 2 * scale)) =
          (fun p : Point3 => Point3.mk
            ((p.x - bboxMid Point3.x c cs) * (2 * scale / maxRangeOf c cs))
            ((p.y - bboxMid Point3.y c cs) * (2 * scale / maxRangeOf c cs))
            ((p.z - bboxMid Point3.z c cs) * (2 * scale / maxRangeOf c cs))) := by
        funext p
        simp only [Point3.mk.injEq]
        refine ⟨by ring, by ring, by ring⟩
      rw [hfg]
    · intro p hp q hq
      simp only [sqDist3]
      ring
  · refine ⟨⟨bboxMid Point3.x c cs, bboxMid Point3.y c cs, bboxMid Point3.z c cs⟩,
      1, zero_le_one, ?_, ?_⟩
    · rw [normalize_coords_degenerate c cs scale hR]
      simp [mul_one]
    · intro p hp q hq
      simp only [sqDist3]
      ring

/-- Witness for C7 (amended) at the batch `[(0,0,0), (1,0,0)]` with
`scale = 10`. -/
theorem normalize_uniform_affine_witness :
    0 ≤ (10:ℚ) ∧ ∃ t : Point3, ∃ factor : ℚ, 0 ≤ factor ∧
      normalize_coords ((⟨0, 0, 0⟩ : Point3) :: [⟨1, 0, 0⟩]) 10 =
        some (((⟨0, 0, 0⟩ : Point3) :: [⟨1, 0, 0⟩]).map
          (fun p => Point3.mk ((p.x - t.x) * factor) ((p.y - t.y) * factor)
            ((p.z - t.z) * factor))) ∧
      ∀ p ∈ (⟨0, 0, 0⟩ : Point3) :: [⟨1, 0, 0⟩],
        ∀ q ∈ (⟨0, 0, 0⟩ : Point3) :: [⟨1, 0, 0⟩],
        sqDist3
          (Point3.mk ((p.x - t.x) * factor) ((p.y - t.y) * factor) ((p.z - t.z) * factor))
          (Point3.mk ((q.x - t.x) * factor) ((q.y - t.y) * factor) ((q.z - t.z) * factor)) =
          factor ^ 2 * sqDist3 p q :=
  ⟨by norm_num, normalize_uniform_affine ⟨0, 0, 0⟩ [⟨1, 0, 0⟩] 10 (by norm_num)⟩

/-- C7 counterexample: with the negative scale `-1` (the claim quantifies
over every scale), the transform applied by `normalize_coords` to the batch
`[(0,0,0), (1,0,0)]` is not the centered input times any non-negative
scalar: the forced scalar is `-2`. -/
theorem normalize_uniform_affine_cex :
    ¬ ∃ t : Point3, ∃ factor : ℚ, 0 ≤ factor ∧
      normalize_coords ((⟨0, 0, 0⟩ : Point3) :: [⟨1, 0, 0⟩]) (-1) =
        some (((⟨0, 0, 0⟩ : Point3) :: [⟨1, 0, 0⟩]).map
          (fun p => Point3.mk ((p.x - t.x) * factor) ((p.y - t.y) * factor)
            ((p.z - t.z) * factor))) := by
  rintro ⟨t, f, hf, heq⟩
  have hval : normalize_coords ((⟨0, 0, 0⟩ : Point3) :: [⟨1, 0, 0⟩]) (-1) =
      some [⟨1, 0, 0⟩, ⟨-1, 0, 0⟩] := by
    norm_num [normalize_coords, maxRangeOf, axisRange, axisMax, axisMin,
      foldMax, foldMin, bboxMid]
  rw [hval] at heq
  simp only [List.map_cons, List.map_nil, Option.some.injEq, List.cons.injEq,
    Point3.mk.injEq, and_true] at heq
  obtain ⟨⟨e1, -, -⟩, e2, -, -⟩ := heq
  nlinarith [e1, e2, hf]

/-! ## The similarity index and graph builder (`knn_service.py`)

The FAISS index itself (`faiss.IndexFlatIP` / `faiss.IndexFlatL2`,
`faiss.normalize_L2`, `index.search`) is an external library, specified at
its interface boundary in spec sections 4.2 and 4.3: exact brute-force
scoring of every stored row, results pre-sorted best-first (descending
inner product for the cosine configuration, ascending squared L2 distance
for the euclidean one), `k` clamped to the index size, deterministic tie
breaking.  Those index operations are modelled from that contract below;
everything else follows `knn_service.py` line by line.  A `KNNState` holds
the index contents: for the cosine metric `add_embeddings` stores the rows
after the in-place `faiss.normalize_L2`, a per-row rescaling performed by
the external library, so `stored` rows are the stored (post-normalization)
values and `self.embeddings` coincides with them. -/

/-- The two index configurations of `KNNService.__init__`
(`knn_service.py`, lines 26-31). -/
inductive Metric
  | cosine
  | euclidean
deriving DecidableEq, Repr

/-- State of a `KNNService`: the configured dimension and metric, the
parallel identifier list `self.ids` and the stored rows (the FAISS index
contents, equal to `self.embeddings`). -/
structure KNNState where
  dim : ℕ
  metric : Metric
  ids : List String
  stored : List (List ℚ)
deriving DecidableEq, Repr

/-- Inner product of two rows. -/
def dot (u v : List ℚ) : ℚ := (List.zipWith (· * ·) u v).sum

/-- Squared Euclidean distance between two rows. -/
def sqDistVec (u v : List ℚ) : ℚ :=
  (List.zipWith (fun a b => (a - b) ^ 2) u v).sum

/-- Modelled from the spec: the raw score the FAISS index (external
library) assigns a stored row against a query — inner product for the
`IndexFlatIP` cosine configuration, squared L2 distance for `IndexFlatL2`
(spec section 4.2). -/
def indexScore (m : Metric) (q v : List ℚ) : ℚ :=
  match m with
  | .cosine => dot q v
  | .euclidean => sqDistVec q v

/-- Modelled from the spec: the best-first order of FAISS search results —
descending score for the inner-product index, ascending for the L2 index
(spec section 4.2). -/
def scoreLE (m : Metric) (a b : String × ℚ) : Prop :=
  match m with
  | .cosine => b.2 ≤ a.2
  | .euclidean => a.2 ≤ b.2

instance (m : Metric) : DecidableRel (scoreLE m) := fun a b =>
  match m with
  | .cosine => inferInstanceAs (Decidable (b.2 ≤ a.2))
  | .euclidean => inferInstanceAs (Decidable (a.2 ≤ b.2))

instance (m : Metric) : IsTotal (String × ℚ) (scoreLE m) where
  total a b := by
    cases m with
    | cosine => exact le_total b.2 a.2
    | euclidean => exact le_total a.2 b.2

instance (m : Metric) : IsTrans (String × ℚ) (scoreLE m) where
  trans a b c hab hbc := by
    cases m with
    | cosine => exact le_trans hbc hab
    | euclidean => exact le_trans hab hbc

/-- Modelled from the spec: one row of the FAISS `index.search` call —
every stored row is scored exactly (brute force), results are sorted
best-first by a stable deterministic rule, and at most `k` entries are
returned (spec sections 4.2 and 4.3 item 4).  Each result pairs the
identifier at the hit's index position (`self.ids[idx]`) with its score. -/
def searchRow (st : KNNState) (q : List ℚ) (k : ℕ) : List (String × ℚ) :=
  (List.insertionSort (scoreLE st.metric)
    ((st.ids.zip st.stored).map (fun e => (e.1, indexScore st.metric q e.2)))).take k

/-- Embedding of `KNNService.search_batch` (`knn_service.py`, lines
97-126): on an empty index one empty result list per query row; otherwise
one best-first result row per query with `k` clamped to the index size.
The cosine query normalization (`faiss.normalize_L2` on the query batch)
rescales each query by a positive scalar; `build_knn_graph` passes the
already normalized stored rows as queries, on which that step is the
identity. -/
def search_batch (st : KNNState) (queries : List (List ℚ)) (k : ℕ) :
    List (List (String × ℚ)) :=
  if st.stored.length = 0 then queries.map (fun _ => [])
  else queries.map (fun q => searchRow st q k)

/-- One directed edge of the similarity graph: a target identifier and a
similarity weight. -/
structure GraphEdge where
  target : String
  weight : ℚ
deriving DecidableEq, Repr

/-- Weight of an edge from a raw search score (`knn_service.py`, lines
152-157): cosine scores are used directly, euclidean distances are mapped
through `1 / (1 + distance)`. -/
def edgeWeight (m : Metric) (d : ℚ) : ℚ :=
  match m with
  | .cosine => d
  | .euclidean => 1 / (1 + d)

/-- Adjacency list of one node (`knn_service.py`, lines 148-164): walk the
node's search row, skip the entry whose identifier equals the node's own,
convert scores to weights, and keep the first `k` entries
(`neighbors[:k]`). -/
def nodeNeighbors (m : Metric) (node : String) (row : List (String × ℚ))
    (k : ℕ) : List GraphEdge :=
  ((row.filter (fun e => e.1 ≠ node)).map
    (fun e => GraphEdge.mk e.1 (edgeWeight m e.2))).take k

/-- Embedding of `KNNService.build_knn_graph` (`knn_service.py`, lines
128-167): an empty mapping when nothing was ever added, otherwise each
node's own stored row is queried with `k + 1` neighbors and the node's
adjacency list is built from its search row.  The mapping keeps the
insertion order of `self.ids` (Python dict insertion order). -/
def build_knn_graph (st : KNNState) (k : ℕ) : List (String × List GraphEdge) :=
  if st.stored.length = 0 ∨ st.ids.length = 0 then []
  else
    (st.ids.zip (search_batch st st.stored (k + 1))).map
      (fun e => (e.1, nodeNeighbors st.metric e.1 e.2 k))

/-- The one error `KNNService.add_embeddings` can raise (a `ValueError`
for a width mismatch, `knn_service.py` line 47). -/
inductive KNNError
  | dimensionMismatch
deriving DecidableEq, Repr

/-- A numpy embedding batch of shape `[n, width]`: `width` is
`embeddings.shape[1]` and `rows` the `n` rows. -/
structure EmbeddingBatch where
  width : ℕ
  rows : List (List ℚ)
deriving DecidableEq, Repr

/-- Embedding of `KNNService.add_embeddings` (`knn_service.py`, lines
38-64).  The only validation in the source is the width check
`embeddings.shape[1] != self.embedding_dim` (line 46); the row count is
never compared against `len(ids)`.  On success `self.ids` is extended and
the batch rows (after the external `faiss.normalize_L2` for the cosine
metric, absorbed into the row values) are appended to the index and to
`self.embeddings`. -/
def add_embeddings (st : KNNState) (batch : EmbeddingBatch)
    (ids : List String) : Except KNNError KNNState :=
  if batch.width ≠ st.dim then .error .dimensionMismatch
  else .ok { st with ids := st.ids ++ ids, stored := st.stored ++ batch.rows }

/-! ### Facts about search rows and adjacency lists -/

lemma sqDistVec_nonneg (u v : List ℚ) : 0 ≤ sqDistVec u v := by
  induction u generalizing v with
  | nil => simp [sqDistVec]
  | cons a u ih =>
      cases v with
      | nil => simp [sqDistVec]
      | cons b v =>
          have h1 : (0:ℚ) ≤ (a - b) ^ 2 := sq_nonneg _
          have h2 := ih v
          unfold sqDistVec at *
          simp only [List.zipWith_cons_cons, List.sum_cons]
          linarith

lemma countP_self_le_one_of_nodup (node : String) (l : List String)
    (h : l.Nodup) : l.countP (fun a => decide (a = node)) ≤ 1 := by
  induction l with
  | nil => simp
  | cons a t ih =>
      rw [List.nodup_cons] at h
      rw [List.countP_cons]
      by_cases ha : a = node
      · have hzero : t.countP (fun a => decide (a = node)) = 0 := by
          rw [List.countP_eq_zero]
          intro b hb
          simp only [decide_eq_true_eq]
          intro hb'
          exact h.1 (by rw [ha, ← hb']; exact hb)
        simp [ha, hzero]
      · simpa [ha] using ih h.2

lemma searchRow_sorted (st : KNNState) (q : List ℚ) (k : ℕ) :
    List.Pairwise (scoreLE st.metric) (searchRow st q k) :=
  List.Pairwise.sublist (List.take_sublist k _)
    (List.sorted_insertionSort (scoreLE st.metric) _)

lemma searchRow_length (st : KNNState) (q : List ℚ) (k : ℕ)
    (hlen : st.ids.length = st.stored.length) :
    (searchRow st q k).length = min k st.ids.length := by
  unfold searchRow
  rw [List.length_take]
  congr 1
  rw [(List.perm_insertionSort (scoreLE st.metric) _).length_eq,
    List.length_map, List.length_zip, ← hlen, min_self]

lemma searchRow_countP_self (st : KNNState) (q : List ℚ) (k : ℕ) (node : String)
    (hlen : st.ids.length = st.stored.length) (hnodup : st.ids.Nodup) :
    (searchRow st q k).countP (fun e => decide (e.1 = node)) ≤ 1 := by
  have h1 : (searchRow st q k).countP (fun e => decide (e.1 = node)) ≤
      (List.insertionSort (scoreLE st.metric)
        ((st.ids.zip st.stored).map
          (fun e => (e.1, indexScore st.metric q e.2)))).countP
        (fun e => decide (e.1 = node)) :=
    List.Sublist.countP_le _ (List.take_sublist k _)
  have h2 : (List.insertionSort (scoreLE st.metric)
      ((st.ids.zip st.stored).map
        (fun e => (e.1, indexScore st.metric q e.2)))).countP
        (fun e => decide (e.1 = node)) =
      ((st.ids.zip st.stored).map
        (fun e => (e.1, indexScore st.metric q e.2))).countP
        (fun e => decide (e.1 = node)) :=
    (List.perm_insertionSort (scoreLE st.metric) _).countP_eq _
  have h3 : ((st.ids.zip st.stored).map
      (fun e => (e.1, indexScore st.metric q e.2))).countP
        (fun e => decide (e.1 = node)) =
      st.ids.countP (fun a => decide (a = node)) := by
    rw [List.countP_map]
    have h4 : st.ids.countP (fun a => decide (a = node)) =
        ((st.ids.zip st.stored).map Prod.fst).countP
          (fun a => decide (a = node)) := by
      rw [List.map_fst_zip st.ids st.stored hlen.le]
    rw [h4, List.countP_map]
    rfl
  rw [h2, h3] at h1
  exact le_trans h1 (countP_self_le_one_of_nodup node st.ids hnodup)

lemma searchRow_mem_score (st : KNNState) (q : List ℚ) (k : ℕ) :
    ∀ e ∈ searchRow st q k, ∃ v, e.2 = indexScore st.metric q v := by
  intro e he
  have h1 := List.mem_of_mem_take he
  have h2 := ((List.perm_insertionSort (scoreLE st.metric) _).mem_iff).mp h1
  obtain ⟨pr, _, rfl⟩ := List.mem_map.mp h2
  exact ⟨pr.2, rfl⟩

lemma length_filter_ne_ge (node : String) (l : List (String × ℚ))
    (h : l.countP (fun e => decide (e.1 = node)) ≤ 1) :
    l.length - 1 ≤ (l.filter (fun e => e.1 ≠ node)).length := by
  induction l with
  | nil => simp
  | cons a t ih =>
      rw [List.countP_cons] at h
      by_cases ha : a.1 = node
      · have hif : (if (decide (a.1 = node)) = true then 1 else 0) = 1 := by
          simp [ha]
        rw [hif] at h
        have hzero : t.countP (fun e => decide (e.1 = node)) = 0 := by omega
        have hall : ∀ e ∈ t, ¬ e.1 = node := by
          intro e he
          have := List.countP_eq_zero.mp hzero e he
          simpa using this
        have hfilter : t.filter (fun e => e.1 ≠ node) = t := by
          rw [List.filter_eq_self]
          intro e he
          simpa using hall e he
        have hdrop : (decide (a.1 ≠ node)) = false := by simpa using ha
        have hstep : List.filter (fun e => e.1 ≠ node) (a :: t) = t := by
          rw [List.filter_cons]
          simp only [hdrop]
          simpa using hfilter
        rw [hstep]
        simp
      · have h' : t.countP (fun e => decide (e.1 = node)) ≤ 1 := by
          simp [ha] at h
          omega
        have := ih h'
        simp only [List.filter_cons, List.length_cons]
        have hkeep : (decide (a.1 ≠ node)) = true := by simpa using ha
        rw [if_pos hkeep]
        simp only [List.length_cons]
        omega

lemma nodeNeighbors_length_le (m : Metric) (node : String)
    (row : List (String × ℚ)) (k : ℕ) :
    (nodeNeighbors m node row k).length ≤ k := by
  unfold nodeNeighbors
  rw [List.length_take]
  exact min_le_left _ _

lemma nodeNeighbors_length_eq (m : Metric) (node : String)
    (row : List (String × ℚ)) (k : ℕ) (hrow : row.length = k + 1)
    (hcount : row.countP (fun e => decide (e.1 = node)) ≤ 1) :
    (nodeNeighbors m node row k).length = k := by
  have hge := length_filter_ne_ge node row hcount
  unfold nodeNeighbors
  rw [List.length_take, List.length_map]
  rw [min_eq_left (by omega)]

lemma nodeNeighbors_no_self (m : Metric) (node : String)
    (row : List (String × ℚ)) (k : ℕ) :
    ∀ g ∈ nodeNeighbors m node row k, g.target ≠ node := by
  intro g hg
  unfold nodeNeighbors at hg
  have hg' := List.mem_of_mem_take hg
  obtain ⟨e, he, rfl⟩ := List.mem_map.mp hg'
  have := List.of_mem_filter he
  simpa using this

/-- Members of the graph: every node's adjacency list comes from a
`k + 1`-neighbor search row of some stored query row. -/
lemma build_mem_structure (st : KNNState) (k : ℕ) :
    ∀ e ∈ build_knn_graph st k, e.1 ∈ st.ids ∧
      ∃ q ∈ st.stored, e.2 = nodeNeighbors st.metric e.1 (searchRow st q (k + 1)) k := by
  intro e he
  unfold build_knn_graph at he
  by_cases hemp : st.stored.length = 0 ∨ st.ids.length = 0
  · rw [if_pos hemp] at he
    cases he
  · rw [if_neg hemp] at he
    obtain ⟨pair, hpair, rfl⟩ := List.mem_map.mp he
    obtain ⟨hid, hrow⟩ := List.of_mem_zip hpair
    have hne : ¬ st.stored.length = 0 := by tauto
    rw [search_batch, if_neg hne] at hrow
    obtain ⟨q, hq, hrow'⟩ := List.mem_map.mp hrow
    refine ⟨hid, q, hq, ?_⟩
    rw [hrow']

/-- C3: in every graph built by `build_knn_graph` over a well-formed index
state (identifier list parallel to the stored rows and duplicate-free), no
edge points from a node to itself, every node has at most `k` outgoing
edges, and fewer than `k` only if the index holds fewer than `k + 1`
vectors. -/
theorem build_knn_graph_edges_valid (st : KNNState) (k : ℕ)
    (hlen : st.ids.length = st.stored.length) (hnodup : st.ids.Nodup) :
    ∀ e ∈ build_knn_graph st k,
      (∀ g ∈ e.2, g.target ≠ e.1) ∧ e.2.length ≤ k ∧
        (k + 1 ≤ st.ids.length → e.2.length = k) := by
  intro e he
  obtain ⟨hid, q, hq, hadj⟩ := build_mem_structure st k e he
  refine ⟨?_, ?_, ?_⟩
  · intro g hg
    rw [hadj] at hg
    exact nodeNeighbors_no_self _ _ _ _ g hg
  · rw [hadj]
    exact nodeNeighbors_length_le _ _ _ _
  · intro hk
    rw [hadj]
    apply nodeNeighbors_length_eq
    · rw [searchRow_length st q (k + 1) hlen]
      exact min_eq_left hk
    · exact searchRow_countP_self st q (k + 1) e.1 hlen hnodup

/-- Witness for C3 on a concrete three-vector cosine state with `k = 1`. -/
theorem build_knn_graph_edges_valid_witness :
    ((KNNState.mk 2 Metric.cosine ["a", "b", "c"]
        [[1, 0], [0, 1], [1, 0]]).ids.length =
      (KNNState.mk 2 Metric.cosine ["a", "b", "c"]
        [[1, 0], [0, 1], [1, 0]]).stored.length) ∧
    (KNNState.mk 2 Metric.cosine ["a", "b", "c"]
      [[1, 0], [0, 1], [1, 0]]).ids.Nodup ∧
    ∀ e ∈ build_knn_graph
        (KNNState.mk 2 Metric.cosine ["a", "b", "c"] [[1, 0], [0, 1], [1, 0]]) 1,
      (∀ g ∈ e.2, g.target ≠ e.1) ∧ e.2.length ≤ 1 ∧
        (1 + 1 ≤ (KNNState.mk 2 Metric.cosine ["a", "b", "c"]
          [[1, 0], [0, 1], [1, 0]]).ids.length → e.2.length = 1) :=
  ⟨rfl, by decide,
    build_knn_graph_edges_valid
      (KNNState.mk 2 Metric.cosine ["a", "b", "c"] [[1, 0], [0, 1], [1, 0]]) 1
      rfl (by decide)⟩

/-- C4: with `n ≥ k + 1` stored vectors on a well-formed state, the graph
has one entry per identifier and every node has exactly `k` outgoing
edges; each adjacency list comes from querying the node's own row with
`k + 1` neighbors, dropping the self entry and keeping the first `k` in
the index's best-first order (the content of `nodeNeighbors` composed with
`searchRow`, exposed by `build_mem_structure`). -/
theorem build_knn_graph_degree_exact (st : KNNState) (k : ℕ)
    (hlen : st.ids.length = st.stored.length) (hnodup : st.ids.Nodup)
    (hk : k + 1 ≤ st.ids.length) :
    (build_knn_graph st k).map Prod.fst = st.ids ∧
      ∀ e ∈ build_knn_graph st k, e.2.length = k := by
  constructor
  · have hid0 : ¬ st.ids.length = 0 := by omega
    have hst0 : ¬ st.stored.length = 0 := by omega
    unfold build_knn_graph
    rw [if_neg (not_or.mpr ⟨hst0, hid0⟩)]
    rw [List.map_map]
    have hrows : (search_batch st st.stored (k + 1)).length = st.ids.length := by
      rw [search_batch, if_neg hst0, List.length_map, hlen]
    exact List.map_fst_zip st.ids (search_batch st st.stored (k + 1)) hrows.ge
  · intro e he
    obtain ⟨hid, q, hq, hadj⟩ := build_mem_structure st k e he
    rw [hadj]
    apply nodeNeighbors_length_eq
    · rw [searchRow_length st q (k + 1) hlen]
      exact min_eq_left hk
    · exact searchRow_countP_self st q (k + 1) e.1 hlen hnodup

/-- Witness for C4 on the same three-vector state with `k = 1`
(`3 ≥ k + 1 = 2`). -/
theorem build_knn_graph_degree_exact_witness :
    ((KNNState.mk 2 Metric.cosine ["a", "b", "c"]
        [[1, 0], [0, 1], [1, 0]]).ids.length =
      (KNNState.mk 2 Metric.cosine ["a", "b", "c"]
        [[1, 0], [0, 1], [1, 0]]).stored.length) ∧
    (KNNState.mk 2 Metric.cosine ["a", "b", "c"]
      [[1, 0], [0, 1], [1, 0]]).ids.Nodup ∧
    1 + 1 ≤ (KNNState.mk 2 Metric.cosine ["a", "b", "c"]
      [[1, 0], [0, 1], [1, 0]]).ids.length ∧
    ((build_knn_graph
        (KNNState.mk 2 Metric.cosine ["a", "b", "c"] [[1, 0], [0, 1], [1, 0]]) 1).map
          Prod.fst =
        (KNNState.mk 2 Metric.cosine ["a", "b", "c"] [[1, 0], [0, 1], [1, 0]]).ids ∧
      ∀ e ∈ build_knn_graph
          (KNNState.mk 2 Metric.cosine ["a", "b", "c"] [[1, 0], [0, 1], [1, 0]]) 1,
        e.2.length = 1) :=
  ⟨rfl, by decide, by decide,
    build_knn_graph_degree_exact
      (KNNState.mk 2 Metric.cosine ["a", "b", "c"] [[1, 0], [0, 1], [1, 0]]) 1
      rfl (by decide) (by decide)⟩

/-- C10: in every graph built by `build_knn_graph`, under either metric,
each node's adjacency list is ordered by non-increasing weight, so the
first edge of every list carries the maximal weight of that list. -/
theorem build_knn_graph_weights_sorted (st : KNNState) (k : ℕ) :
    ∀ e ∈ build_knn_graph st k,
      List.Pairwise (fun g1 g2 : GraphEdge => g2.weight ≤ g1.weight) e.2 ∧
        ∀ h0 ∈ e.2.head?, ∀ g ∈ e.2, g.weight ≤ h0.weight := by
  intro e he
  obtain ⟨hid, q, hq, hadj⟩ := build_mem_structure st k e he
  have hsorted := searchRow_sorted st q (k + 1)
  have hfil : List.Pairwise (scoreLE st.metric)
      ((searchRow st q (k + 1)).filter (fun x => x.1 ≠ e.1)) :=
    hsorted.filter _
  have himp : List.Pairwise
      (fun a b : String × ℚ =>
        edgeWeight st.metric b.2 ≤ edgeWeight st.metric a.2)
      ((searchRow st q (k + 1)).filter (fun x => x.1 ≠ e.1)) := by
    refine hfil.imp_of_mem ?_
    intro a b hamem hbmem hr
    have hamem' := List.mem_of_mem_filter hamem
    cases hm : st.metric with
    | cosine =>
        have hr' : b.2 ≤ a.2 := by
          rw [hm] at hr
          exact hr
        exact hr'
    | euclidean =>
        obtain ⟨v, hv⟩ := searchRow_mem_score st q (k + 1) a hamem'
        have ha2 : 0 ≤ a.2 := by
          rw [hv, hm]
          exact sqDistVec_nonneg q v
        have hr' : a.2 ≤ b.2 := by
          rw [hm] at hr
          exact hr
        show 1 / (1 + b.2) ≤ 1 / (1 + a.2)
        apply one_div_le_one_div_of_le (by linarith) (by linarith)
  have hmap : List.Pairwise (fun g1 g2 : GraphEdge => g2.weight ≤ g1.weight)
      (((searchRow st q (k + 1)).filter (fun x => x.1 ≠ e.1)).map
        (fun x => GraphEdge.mk x.1 (edgeWeight st.metric x.2))) :=
    List.Pairwise.map _ (fun a b hab => hab) himp
  have hpair : List.Pairwise (fun g1 g2 : GraphEdge => g2.weight ≤ g1.weight) e.2 := by
    rw [hadj]
    exact List.Pairwise.sublist (List.take_sublist k _) hmap
  refine ⟨hpair, ?_⟩
  intro h0 hh0 g hg
  cases hl : e.2 with
  | nil =>
      rw [hl] at hh0
      simp at hh0
  | cons a t =>
      rw [hl] at hh0 hg
      have ha : h0 = a := by simpa using hh0.symm
      rw [hl, List.pairwise_cons] at hpair
      rcases List.mem_cons.mp hg with h | h
      · rw [ha, h]
      · rw [ha]
        exact hpair.1 g h

/-- Witness for C10 on a concrete three-vector cosine state with `k = 2`:
the node `"a"` carries its adjacency list sorted by non-increasing
weight. -/
theorem build_knn_graph_weights_sorted_witness :
    ("a", [GraphEdge.mk "c" 1, GraphEdge.mk "b" 0]) ∈
        build_knn_graph (KNNState.mk 2 Metric.cosine ["a", "b", "c"]
          [[1, 0], [0, 1], [1, 0]]) 2 ∧
      (List.Pairwise (fun g1 g2 : GraphEdge => g2.weight ≤ g1.weight)
          [GraphEdge.mk "c" 1, GraphEdge.mk "b" 0] ∧
        ∀ h0 ∈ ([GraphEdge.mk "c" 1, GraphEdge.mk "b" 0] : List GraphEdge).head?,
          ∀ g ∈ ([GraphEdge.mk "c" 1, GraphEdge.mk "b" 0] : List GraphEdge),
            g.weight ≤ h0.weight) := by
  have hg : build_knn_graph (KNNState.mk 2 Metric.cosine ["a", "b", "c"]
      [[1, 0], [0, 1], [1, 0]]) 2 =
      [("a", [GraphEdge.mk "c" 1, GraphEdge.mk "b" 0]),
        ("b", [GraphEdge.mk "a" 0, GraphEdge.mk "c" 0]),
        ("c", [GraphEdge.mk "a" 1, GraphEdge.mk "b" 0])] := by
    norm_num [build_knn_graph, search_batch, searchRow, nodeNeighbors, indexScore,
      dot, edgeWeight, List.insertionSort, List.orderedInsert, scoreLE]
    simp
  have hmem : ("a", [GraphEdge.mk "c" 1, GraphEdge.mk "b" 0]) ∈
      build_knn_graph (KNNState.mk 2 Metric.cosine ["a", "b", "c"]
        [[1, 0], [0, 1], [1, 0]]) 2 := by
    rw [hg]
    simp
  exact ⟨hmem, build_knn_graph_weights_sorted _ 2 _ hmem⟩

/-! ## Graph serialization (`KNNService.save_graph`) -/

/-- One element of the flat edge list written to `graph.json`. -/
structure FlatEdge where
  source : String
  target : String
  weight : ℚ
deriving DecidableEq, Repr

/-- The serialized graph document of `save_graph` (`knn_service.py`,
lines 183-188). -/
structure GraphDoc where
  k : ℕ
  num_nodes : ℕ
  num_edges : ℕ
  edges : List FlatEdge
deriving DecidableEq, Repr

/-- The flat edge list of `save_graph` (`knn_service.py`, lines 174-181):
every node's adjacency list expanded to `{source, target, weight}` records
in iteration order. -/
def flattenEdges (graph : List (String × List GraphEdge)) : List FlatEdge :=
  graph.flatMap (fun e => e.2.map (fun g => FlatEdge.mk e.1 g.target g.weight))

/-- Embedding of `KNNService.save_graph` (`knn_service.py`, lines
169-193), as the document it writes to disk (the file-system write
itself is outside the model).  Note the `k` field of the output is
`len(graph[next(iter(graph))])` — the out-degree of the first node in the
mapping's iteration order (`0` for an empty graph) — not a recorded
configuration parameter. -/
def save_graph (graph : List (String × List GraphEdge)) : GraphDoc :=
  let edges := flattenEdges graph
  { k := match graph with
      | [] => 0
      | e :: _ => e.2.length
    num_nodes := graph.length
    num_edges := edges.length
    edges := edges }

/-- C9 (amended): the saved document carries the flat edge list, the node
count, the edge count (the sum of all out-degrees), and a `k` counter equal
to the out-degree of the first node of the graph (`0` when the graph is
empty) — which coincides with the configured `k` whenever the graph was
built on a well-formed state holding at least `k + 1` vectors, but is not
the configured `k` in general. -/
theorem save_graph_summary (graph : List (String × List GraphEdge)) :
    (save_graph graph).num_nodes = graph.length ∧
    (save_graph graph).num_edges = (graph.map (fun e => e.2.length)).sum ∧
    (save_graph graph).edges = flattenEdges graph ∧
    (∀ e tl, graph = e :: tl → (save_graph graph).k = e.2.length) ∧
    (graph = [] → (save_graph graph).k = 0) := by
  refine ⟨rfl, ?_, rfl, ?_, ?_⟩
  · show (flattenEdges graph).length = _
    rw [flattenEdges, List.length_flatMap]
    congr 1
    simp [Function.comp]
  · intro e tl hg
    rw [hg]
    rfl
  · intro hg
    rw [hg]
    rfl

/-- Witness for C9 (amended) on a concrete one-node graph. -/
theorem save_graph_summary_witness :
    ([("a", [GraphEdge.mk "b" 1])] : List (String × List GraphEdge)) =
        ("a", [GraphEdge.mk "b" 1]) :: [] ∧
      (save_graph [("a", [GraphEdge.mk "b" 1])]).num_nodes = 1 ∧
      (save_graph [("a", [GraphEdge.mk "b" 1])]).num_edges = 1 ∧
      (save_graph [("a", [GraphEdge.mk "b" 1])]).k = 1 :=
  ⟨rfl, (save_graph_summary [("a", [GraphEdge.mk "b" 1])]).1,
    by
      have h := (save_graph_summary [("a", [GraphEdge.mk "b" 1])]).2.1
      simpa using h,
    by
      have h := (save_graph_summary [("a", [GraphEdge.mk "b" 1])]).2.2.2.1
        ("a", [GraphEdge.mk "b" 1]) [] rfl
      simpa using h⟩

/-- C9 counterexample: building on a two-vector index with configured
`k = 8` yields a document whose `k` counter is `1` (the first node's
out-degree), not the configured `8`. -/
theorem save_graph_k_not_configured_cex :
    (save_graph (build_knn_graph
      (KNNState.mk 2 Metric.cosine ["a", "b"] [[1, 0], [0, 1]]) 8)).k = 1 ∧
      (1 : ℕ) ≠ 8 := by
  constructor
  · norm_num [save_graph, build_knn_graph, search_batch, searchRow, nodeNeighbors,
      indexScore, dot, edgeWeight, List.insertionSort, List.orderedInsert, scoreLE,
      flattenEdges]
    simp
  · decide

/-! ## The orchestrating application layer (`app.py`) -/

/-- One record of the in-memory `image_database` of `app.py`: the
embedding and the (initially absent) projected coordinates.  The stored
file path, filename and free-form metadata are presentation-layer data
not touched by the verified claims. -/
structure ImageRecord where
  embedding : List ℚ
  coords : Option Point3
deriving DecidableEq, Repr

/-- Failures surfaced by the `app.py` endpoints as HTTP error responses:
the 400 guard for fewer than two images (the spec's `InsufficientData`)
and the 500 wrappers around collaborator or computation failures. -/
inductive AppError
  | insufficientData
  | collaboratorFailure
  | projectionError
deriving DecidableEq, Repr

/-- The global mutable state of `app.py`: the insertion-ordered
`image_database`, the `is_projection_fitted` flag, and the singleton
`KNNService` state. -/
structure AppState where
  database : List (String × ImageRecord)
  fitted : Bool
  knn : KNNState
deriving DecidableEq, Repr

/-- Embedding of the `/graph` endpoint `build_graph` (`app.py`, lines
226-249): the guard `len(image_database) < 2` fails the request with
HTTP 400 (the spec's `InsufficientData`); otherwise the graph is built
from the current `KNNService` state and serialized (the `graph.json`
file write is outside the model; the document it writes is returned). -/
def build_graph (st : AppState) (k : ℕ) :
    Except AppError (List (String × List GraphEdge) × GraphDoc) :=
  if st.database.length < 2 then .error .insufficientData
  else
    let graph := build_knn_graph st.knn k
    .ok (graph, save_graph graph)

/-- The `image_database[image_id]["coords"] = ...` assignment of the
write-back loop in `project_to_3d` (`app.py`, lines 196-197). -/
def setCoords (db : List (String × ImageRecord)) (i : String) (c : Point3) :
    List (String × ImageRecord) :=
  db.map (fun e => if e.1 = i then (e.1, { e.2 with coords := some c }) else e)

/-- The write-back loop of `project_to_3d` (`app.py`, lines 196-197):
`for i, image_id in enumerate(image_ids)` assigns `coords_normalized[i]`
to each record in turn.  When the coordinate list is shorter than the
identifier list the Python loop raises `IndexError` part-way, keeping the
records already written; the `false` flag reports that abort with the
partially updated database. -/
def writeCoords (db : List (String × ImageRecord)) :
    List String → List Point3 → List (String × ImageRecord) × Bool
  | [], _ => (db, true)
  | _ :: _, [] => (db, false)
  | i :: ids, c :: cs => writeCoords (setCoords db i c) ids cs

/-- Embedding of the `/project` endpoint `project_to_3d` (`app.py`, lines
172-223).  The external UMAP collaborator is a parameter `projector`
returning either raw 3-D coordinates or a failure.  The endpoint: rejects
fewer than two images (HTTP 400); on projector failure aborts (HTTP 500)
with the global state untouched; otherwise normalizes with `scale = 10`,
writes the coordinates back per identifier, and sets the fitted flag.
The final state is returned together with the error, if any, mirroring
Python global-state mutation plus exception propagation; the
`coords.json` file write is outside the model. -/
def project_to_3d (st : AppState)
    (projector : List (List ℚ) → Except Unit (List Point3)) :
    AppState × Option AppError :=
  if st.database.length < 2 then (st, some .insufficientData)
  else
    match projector (st.database.map (fun e => e.2.embedding)) with
    | .error _ => (st, some .collaboratorFailure)
    | .ok coords =>
        match normalize_coords coords 10 with
        | none => (st, some .projectionError)
        | some cn =>
            let pr := writeCoords st.database (st.database.map Prod.fst) cn
            if pr.2 then (AppState.mk pr.1 true st.knn, none)
            else (AppState.mk pr.1 st.fitted st.knn, some .projectionError)

/-! ### Theorems about the application layer -/

lemma normalize_coords_cons (c : Point3) (cs : List Point3) (s : ℚ) :
    ∃ out, normalize_coords (c :: cs) s = some out ∧
      out.length = cs.length + 1 := by
  by_cases hR : 0 < maxRangeOf c cs
  · exact ⟨_, normalize_coords_pos c cs s hR, by simp⟩
  · exact ⟨_, normalize_coords_degenerate c cs s hR, by simp⟩

lemma writeCoords_complete (ids : List String) (cs : List Point3)
    (db : List (String × ImageRecord)) (h : ids.length ≤ cs.length) :
    (writeCoords db ids cs).2 = true := by
  induction ids generalizing db cs with
  | nil => rfl
  | cons i ids ih =>
      cases cs with
      | nil => simp at h
      | cons c cs =>
          simp only [writeCoords]
          apply ih
          simpa using h

/-- C1 (amended): the fewer-than-two-vectors guard lives in the `/graph`
endpoint: `build_graph` fails with `InsufficientData` (HTTP 400) whenever
fewer than 2 images are registered — in particular for `k = 8` with
exactly one registered vector — while the service-level `build_knn_graph`
performs no such check itself. -/
theorem build_graph_insufficient_data (st : AppState) (k : ℕ)
    (h : st.database.length < 2) :
    build_graph st k = .error .insufficientData := by
  unfold build_graph
  rw [if_pos h]

/-- Witness for C1 (amended): one registered image, `k = 8`. -/
theorem build_graph_insufficient_data_witness :
    (AppState.mk [("a", ImageRecord.mk [1, 0] none)] false
        (KNNState.mk 2 Metric.cosine ["a"] [[1, 0]])).database.length < 2 ∧
      build_graph (AppState.mk [("a", ImageRecord.mk [1, 0] none)] false
        (KNNState.mk 2 Metric.cosine ["a"] [[1, 0]])) 8 =
        .error .insufficientData :=
  ⟨by decide, build_graph_insufficient_data _ 8 (by decide)⟩

/-- C1 counterexample: `build_knn_graph` itself, on an index holding
exactly one vector, does not fail — it returns a graph with that node and
an empty adjacency list. -/
theorem build_knn_graph_single_vector_cex :
    build_knn_graph (KNNState.mk 2 Metric.cosine ["a"] [[1, 0]]) 8 =
        [("a", [])] ∧
      (KNNState.mk 2 Metric.cosine ["a"] [[1, 0]]).ids.length = 1 := by
  constructor
  · decide
  · rfl

/-- C5 (amended): `add_embeddings` validates only the batch width against
the configured dimension; a call whose row count differs from the
identifier count is not rejected — it succeeds and extends both the
identifier list and the stored matrix, desynchronizing their lengths. -/
theorem add_embeddings_checks_width_only (st : KNNState)
    (batch : EmbeddingBatch) (ids : List String)
    (hlen : batch.rows.length ≠ ids.length) (hw : batch.width = st.dim) :
    add_embeddings st batch ids =
      .ok { st with ids := st.ids ++ ids, stored := st.stored ++ batch.rows } := by
  unfold add_embeddings
  rw [if_neg (by simp [hw])]

/-- Witness for C5 (amended): two rows, one identifier. -/
theorem add_embeddings_checks_width_only_witness :
    (EmbeddingBatch.mk 2 [[1, 0], [0, 1]]).rows.length ≠
        (["a"] : List String).length ∧
      (EmbeddingBatch.mk 2 [[1, 0], [0, 1]]).width =
        (KNNState.mk 2 Metric.cosine [] []).dim ∧
      add_embeddings (KNNState.mk 2 Metric.cosine [] [])
          (EmbeddingBatch.mk 2 [[1, 0], [0, 1]]) ["a"] =
        .ok { KNNState.mk 2 Metric.cosine [] [] with
          ids := ([] : List String) ++ ["a"],
          stored := ([] : List (List ℚ)) ++ [[1, 0], [0, 1]] } :=
  ⟨by decide, rfl, add_embeddings_checks_width_only _ _ _ (by decide) rfl⟩

/-- C5 counterexample: a batch of 2 correctly sized rows paired with 1
identifier is accepted (no `LengthMismatch` failure) and the index state
is changed. -/
theorem add_embeddings_no_length_mismatch_error_cex :
    (EmbeddingBatch.mk 2 [[1, 0], [0, 1]]).rows.length ≠
        (["a"] : List String).length ∧
      add_embeddings (KNNState.mk 2 Metric.cosine [] [])
          (EmbeddingBatch.mk 2 [[1, 0], [0, 1]]) ["a"] =
        .ok (KNNState.mk 2 Metric.cosine ["a"] [[1, 0], [0, 1]]) ∧
      KNNState.mk 2 Metric.cosine ["a"] [[1, 0], [0, 1]] ≠
        KNNState.mk 2 Metric.cosine ([] : List String) ([] : List (List ℚ)) :=
  ⟨by decide, rfl, by decide⟩

/-- C8: whenever `project_to_3d` aborts with a failure — the insufficient
data guard or a failure of the external projection collaborator — under a
projector honoring its interface contract (one output row per input row,
spec section 6), the returned state is exactly the input state: the fitted
flag and every stored coordinate are unchanged. -/
theorem project_to_3d_failure_preserves_state (st : AppState)
    (projector : List (List ℚ) → Except Unit (List Point3))
    (hconf : ∀ embs cs, projector embs = .ok cs → cs.length = embs.length)
    (err : AppError) (herr : (project_to_3d st projector).2 = some err) :
    (project_to_3d st projector).1 = st := by
  by_cases h2 : st.database.length < 2
  · simp [project_to_3d, h2]
  · cases hp : projector (st.database.map (fun e => e.2.embedding)) with
    | error e => simp [project_to_3d, h2, hp]
    | ok cs =>
        have hcs : cs.length = st.database.length := by
          have := hconf _ _ hp
          simpa using this
        cases cs with
        | nil =>
            exfalso
            rw [List.length_nil] at hcs
            omega
        | cons c cs' =>
            obtain ⟨out, hout, hlenout⟩ := normalize_coords_cons c cs' 10
            have hwrite :
                (writeCoords st.database (st.database.map Prod.fst) out).2 = true := by
              apply writeCoords_complete
              rw [List.length_map, hlenout]
              simp only [List.length_cons] at hcs
              omega
            exfalso
            simp [project_to_3d, h2, hp, hout, hwrite] at herr

/-- Witness for C8: a two-image state with a projector that fails;
`project_to_3d` reports the failure and returns the state unchanged. -/
theorem project_to_3d_failure_preserves_state_witness :
    (∀ embs cs,
        (fun _ : List (List ℚ) => (Except.error () : Except Unit (List Point3)))
          embs = .ok cs → cs.length = embs.length) ∧
      (project_to_3d
        (AppState.mk [("a", ImageRecord.mk [1, 0] none),
          ("b", ImageRecord.mk [0, 1] none)] false
          (KNNState.mk 2 Metric.cosine ["a", "b"] [[1, 0], [0, 1]]))
        (fun _ => .error ())).2 = some AppError.collaboratorFailure ∧
      (project_to_3d
        (AppState.mk [("a", ImageRecord.mk [1, 0] none),
          ("b", ImageRecord.mk [0, 1] none)] false
          (KNNState.mk 2 Metric.cosine ["a", "b"] [[1, 0], [0, 1]]))
        (fun _ => .error ())).1 =
        AppState.mk [("a", ImageRecord.mk [1, 0] none),
          ("b", ImageRecord.mk [0, 1] none)] false
          (KNNState.mk 2 Metric.cosine ["a", "b"] [[1, 0], [0, 1]]) :=
  ⟨fun embs cs h => Except.noConfusion h, rfl,
    project_to_3d_failure_preserves_state _ _
      (fun embs cs h => Except.noConfusion h) AppError.collaboratorFailure rfl⟩

end Atlas
